import Mathlib

/-!
Verification of the funding-rate arbitrage pipeline of this repository
(`FundingArbitrageBot.py` and its near-identical draft `bot.py`).

The embedding keeps the source structure: the Hyperliquid and Paradex
adapters (`get_hyperliquid_funding`, `get_paradex_funding` and the inner
`get_funding_for_coin` retry loop), the detector and ranking logic in
`main`, the message formatting in `main`, and the hour-boundary wait of
`run_hourly`. Network effects are driven by explicit outcome oracles;
Python dicts become association lists; Python floats become rationals;
`datetime` instants become microsecond counts from an hour-aligned origin.
-/

namespace FundingArb

/-- A funding-rate snapshot for one exchange: the Python dict
`{coin: funding_rate}` built by an adapter, rendered as an association list
from coin ticker to per-interval fractional funding rate. -/
abbrev Snapshot := List (String × ℚ)

/-- One entry of the `arbitrage_opportunities` list built in `main`
(fields `coin`, `hyper_rate`, `para_rate`, `difference`,
`hyper_direction`, `para_direction`). The two rate fields are already in
percent: `main` multiplies the snapshot rates by 100 before comparing. -/
structure Opportunity where
  coin : String
  hyper_rate : ℚ
  para_rate : ℚ
  difference : ℚ
  hyper_direction : String
  para_direction : String
deriving DecidableEq, Repr

/-- Dict lookup `snapshot[coin]`; total, defaulting to 0, but only ever used
on coins present in the snapshot. -/
def rateOf (s : Snapshot) (coin : String) : ℚ := (s.lookup coin).getD 0

/-- The coins present in a snapshot (`dict.keys()`). -/
def coinsOf (s : Snapshot) : List String := s.map Prod.fst

/-- `common_coins = set(hyper_data.keys()) & set(para_data.keys())` from
`main`, iterated in the key order of the Hyperliquid snapshot (Python set
iteration order is unspecified; no claim depends on it). -/
def common_coins (hyper_data para_data : Snapshot) : List String :=
  (coinsOf hyper_data).filter (fun c => decide (c ∈ coinsOf para_data))

/-- The body of the per-coin loop of `main`: percent rates, absolute
difference, and the direction assignment by the strict comparison
`if hyper_rate > para_rate`. -/
def mkOpportunity (hyper_data para_data : Snapshot) (coin : String) : Opportunity :=
  if rateOf hyper_data coin * 100 > rateOf para_data coin * 100 then
    ⟨coin, rateOf hyper_data coin * 100, rateOf para_data coin * 100,
      |rateOf hyper_data coin * 100 - rateOf para_data coin * 100|, "short", "long"⟩
  else
    ⟨coin, rateOf hyper_data coin * 100, rateOf para_data coin * 100,
      |rateOf hyper_data coin * 100 - rateOf para_data coin * 100|, "long", "short"⟩

/-- The full `arbitrage_opportunities` list of `main` before sorting: one
entry per common coin. -/
def arbitrage_opportunities (hyper_data para_data : Snapshot) : List Opportunity :=
  (common_coins hyper_data para_data).map (mkOpportunity hyper_data para_data)

/-- The comparison realized by
`sort(key=lambda x: x[difference], reverse=True)`: difference descending.
Python list sort is stable; `List.mergeSort` with this comparison keeps the
left element first on ties, matching the stable descending sort. -/
def byDifferenceDesc (x y : Opportunity) : Bool := decide (y.difference ≤ x.difference)

/-- The ranked report of `main`: sort by difference descending and keep the
first five (`arbitrage_opportunities[:5]`). -/
def rankedReport (hyper_data para_data : Snapshot) : List Opportunity :=
  ((arbitrage_opportunities hyper_data para_data).mergeSort byDifferenceDesc).take 5

/-! ### Hyperliquid adapter (`get_hyperliquid_funding`) -/

/-- One record of the Hyperliquid `fundingHistory` response, as read by
`get_funding_for_coin` (`latest[fundingRate]`, `latest[time]`). -/
structure HyperRecord where
  fundingRate : ℚ
  time : Nat
deriving DecidableEq, Repr

/-- What one attempt of the per-coin Hyperliquid request can observe: a
raised exception, or a response with an HTTP status and a (possibly empty)
funding history list. -/
inductive HyperOutcome where
  | exn : HyperOutcome
  | resp (status : Nat) (data : List HyperRecord) : HyperOutcome
deriving DecidableEq, Repr

/-- The per-coin result dict returned by `get_funding_for_coin`. -/
structure FundingData where
  coin : String
  funding_rate : ℚ
  timestamp : Nat
deriving DecidableEq, Repr

/-- The retry loop of `get_funding_for_coin` (`for attempt in range(retries)`
with `retries = 3`), driven by an oracle giving each attempt's outcome.
Returns the result (`None` when every attempt fails) together with the list
of sleeps performed, in milliseconds: a 200 response with nonempty history
returns the last record immediately with no sleep; a 200 response with empty
history or a non-200 response is followed by `asyncio.sleep(0.1)`; a raised
exception by `asyncio.sleep(0.2 * (attempt + 1))`. -/
def fundingAttempts (coin : String) (oracle : Nat → HyperOutcome) :
    Nat → Nat → Option FundingData × List Nat
  | _, 0 => (none, [])
  | attempt, fuel + 1 =>
    match oracle attempt with
    | .resp status data =>
      if status = 200 then
        match data.getLast? with
        | some latest => (some ⟨coin, latest.fundingRate, latest.time⟩, [])
        | none =>
          let rest := fundingAttempts coin oracle (attempt + 1) fuel
          (rest.1, 100 :: rest.2)
      else
        let rest := fundingAttempts coin oracle (attempt + 1) fuel
        (rest.1, 100 :: rest.2)
    | .exn =>
      let rest := fundingAttempts coin oracle (attempt + 1) fuel
      (rest.1, 200 * (attempt + 1) :: rest.2)

/-- `get_funding_for_coin(coin, start_time, end_time, retries=3)`: three
attempts starting at attempt index 0. -/
def get_funding_for_coin (coin : String) (oracle : Nat → HyperOutcome) :
    Option FundingData × List Nat :=
  fundingAttempts coin oracle 0 3

/-- `get_hyperliquid_funding`: fetch every coin of the universe returned by
`get_meta` (the batching by 5 through `asyncio.gather` preserves order and
per-coin results) and build `{data[coin]: data[funding_rate]}`, dropping the
`None` results (`[r for r in results if r is not None]`). -/
def get_hyperliquid_funding (univCoins : List String)
    (oracle : String → Nat → HyperOutcome) : Snapshot :=
  univCoins.filterMap fun c =>
    ((get_funding_for_coin c (oracle c)).1).map fun d => (d.coin, d.funding_rate)

/-! ### Paradex adapter (`get_paradex_funding`) -/

/-- One record of the Paradex `funding/data` response. The code reads the
rate with `latest.get('funding_rate', '0')`, so the field may be absent. -/
structure ParaRecord where
  funding_rate : Option ℚ
deriving DecidableEq, Repr

/-- What one Paradex per-market request can observe. -/
inductive ParaOutcome where
  | exn : ParaOutcome
  | resp (status : Nat) (results : List ParaRecord) : ParaOutcome
deriving DecidableEq, Repr

/-- `market.split('-')[0]`: the market symbol up to the first dash (the
whole symbol when it has no dash). -/
def tickerOf (market : String) : String :=
  String.mk (market.data.takeWhile (fun c => c ≠ '-'))

/-- Response processing of one market in `get_paradex_funding`: on a 200
response whose `results` list is nonempty, the entry is
`(market.split('-')[0], float(latest.get('funding_rate', '0')))` — the
ticker up to the first dash, and the rate of the first record, defaulting
to `0` when the `funding_rate` field is absent. Anything else yields no
entry. -/
def paradexEntry (market : String) (status : Nat) (results : List ParaRecord) :
    Option (String × ℚ) :=
  if status = 200 then
    match results with
    | [] => none
    | latest :: _ => some (tickerOf market, latest.funding_rate.getD 0)
  else none

/-- One market of the `for market in markets` loop of `get_paradex_funding`:
a single request, a raised exception skipping the market
(`except Exception: continue`). The oracle lists what successive attempts
would observe; the code only ever performs the first — there is no retry. -/
def paradexFetchMarket (market : String) (outs : List ParaOutcome) :
    Option (String × ℚ) :=
  match outs.head? with
  | none => none
  | some .exn => none
  | some (.resp status results) => paradexEntry market status results

/-- `get_paradex_funding`: process every market and build the dict. -/
def get_paradex_funding (markets : List String)
    (oracle : String → List ParaOutcome) : Snapshot :=
  markets.filterMap fun m => paradexFetchMarket m (oracle m)

/-- The shapes of a Hyperliquid attempt outcome that carry no usable funding
observation: a raised exception, a non-200 status, or an empty history. -/
def hyperNoData : HyperOutcome → Prop
  | .exn => True
  | .resp status data => status ≠ 200 ∨ data = []

/-! ### Scheduler time arithmetic (`run_hourly`) -/

/-- Microseconds in one hour; `datetime` carries microsecond resolution. -/
def hourUs : Nat := 3600000000

/-- `now.replace(minute=0, second=0, microsecond=0)`: the instant truncated
down to its hour boundary, with instants as microseconds since an
hour-aligned origin. -/
def truncToHour (now : Nat) : Nat := now / hourUs * hourUs

/-- `next_hour = now.replace(minute=0, second=0, microsecond=0) +
timedelta(hours=1)` from `run_hourly`. -/
def next_hour (now : Nat) : Nat := truncToHour now + hourUs

/-- `wait_seconds = (next_hour - now).total_seconds()` from `run_hourly`,
kept in microseconds; `now` is sampled after the cycle finishes. -/
def wait_us (now : Nat) : Nat := next_hour now - now

/-! ### Report formatting (`main`, message-building block) -/

/-- Left-pad the decimal digits of `k` with zeros to four places. -/
def pad4 (k : Nat) : String :=
  String.mk (List.replicate (4 - (toString k).length) '0') ++ toString k

/-- Fixed-point rendering with four decimal places, as Python `"%.4f"`
renders the difference: round to the nearest 1/10000 and print the integer
and the zero-padded fractional digits. -/
def fmt4 (q : ℚ) : String :=
  (if round (q * 10000) < 0 then "-" else "") ++
    toString ((round (q * 10000)).natAbs / 10000) ++ "." ++
    pad4 ((round (q * 10000)).natAbs % 10000)

/-- Python `"%+.4f"` as used for the two rates: like `fmt4` but with an
explicit leading `+` on nonnegative values. -/
def fmtSigned4 (q : ℚ) : String :=
  if round (q * 10000) < 0 then fmt4 q else "+" ++ fmt4 q

/-- The chunk appended to `message` for one opportunity, exactly the
f-string of `main` with its embedded newlines written as separate appends:
four content lines, each ending in a newline, plus the blank line from the
trailing `\n\n`. -/
def oppChunk (arb : Opportunity) : String :=
  "<b>" ++ arb.coin ++ "</b>" ++ "\n" ++
  "Hyperliquid (" ++ arb.hyper_direction ++ "): " ++ fmtSigned4 arb.hyper_rate ++ "%" ++ "\n" ++
  "Paradex (" ++ arb.para_direction ++ "): " ++ fmtSigned4 arb.para_rate ++ "%" ++ "\n" ++
  "Difference: " ++ fmt4 arb.difference ++ "%" ++ "\n" ++ "\n"

/-- The same chunk decomposed into lines: the four content lines and the
trailing blank line. -/
def oppLines (arb : Opportunity) : List String :=
  ["<b>" ++ arb.coin ++ "</b>",
   "Hyperliquid (" ++ arb.hyper_direction ++ "): " ++ fmtSigned4 arb.hyper_rate ++ "%",
   "Paradex (" ++ arb.para_direction ++ "): " ++ fmtSigned4 arb.para_rate ++ "%",
   "Difference: " ++ fmt4 arb.difference ++ "%",
   ""]

/-- The header of the message, containing the generation time
(`datetime.now().strftime('%H:%M:%S')` passed in as `t`). -/
def headerLine (t : String) : String :=
  "🔄 Top 5 arbitrage opportunities (time: " ++ t ++ "):"

/-- The message `main` builds and sends, or `none` when the report is
empty: the whole build-and-send block sits under
`if arbitrage_opportunities:`, so an empty report produces no payload and
`send_telegram_message` (the delivery fan-out) is not invoked. -/
def formatMessage (t : String) (report : List Opportunity) : Option String :=
  if report.isEmpty then none
  else some (report.foldl (fun msg arb => msg ++ oppChunk arb) (headerLine t ++ "\n\n"))

/-- The message decomposed into its lines (separator `"\n"`): the header,
the blank line after it, then each opportunity's lines. -/
def reportLines (t : String) (report : List Opportunity) : List String :=
  headerLine t :: "" :: (report.map oppLines).flatten

/-- Join a list of lines with newline separators. -/
def joinLines : List String → String
  | [] => ""
  | [l] => l
  | l :: ls => l ++ "\n" ++ joinLines ls

/-! ### Cycle and scheduler (`main` and `run_hourly`) -/

/-- The body of `main` inside the `try`: fetch the Hyperliquid snapshot,
fetch the Paradex snapshot (either fetch can fail wholesale — for Paradex
even the market listing, for Hyperliquid the `get_meta` call — which raises
out of the adapter), then detect, rank and format. The payload is `none`
when there is nothing to send. -/
def cycleBody (fetchHyper fetchPara : Except String Snapshot) (t : String) :
    Except String (Option String) := do
  let hyper_data ← fetchHyper
  let para_data ← fetchPara
  pure (formatMessage t (rankedReport hyper_data para_data))

/-- The `try/except Exception` wrapper of `main`: any error raised by the
cycle body is caught (and logged), and `main` returns normally having sent
nothing. -/
def mainCatch (body : Except String (Option String)) : Option String :=
  match body with
  | .ok payload => payload
  | .error _ => none

/-- `main` as called by `run_hourly`. -/
def main (fetchHyper fetchPara : Except String Snapshot) (t : String) :
    Option String :=
  mainCatch (cycleBody fetchHyper fetchPara t)

/-- One iteration of the `while True` loop of `run_hourly`: run `main`,
then sample the clock and wait until the next hour boundary. Returns the
payload sent (if any) and the wake-up instant; the loop then repeats. -/
def run_hourly_step (fetchHyper fetchPara : Except String Snapshot)
    (t : String) (now : Nat) : Option String × Nat :=
  (main fetchHyper fetchPara t, next_hour now)

/-- An attempt oracle whose first attempt raises and whose later attempts
return a valid observation, exhibiting the retry behavior. -/
def retryCexOracle : Nat → HyperOutcome :=
  fun i => if i = 0 then .exn else .resp 200 [⟨0, 5⟩]

/-! ### Helper lemmas about the detector -/

theorem mkOpportunity_coin (A B : Snapshot) (c : String) :
    (mkOpportunity A B c).coin = c := by
  unfold mkOpportunity; split <;> rfl

theorem mkOpportunity_hyper_rate (A B : Snapshot) (c : String) :
    (mkOpportunity A B c).hyper_rate = rateOf A c * 100 := by
  unfold mkOpportunity; split <;> rfl

theorem mkOpportunity_para_rate (A B : Snapshot) (c : String) :
    (mkOpportunity A B c).para_rate = rateOf B c * 100 := by
  unfold mkOpportunity; split <;> rfl

theorem mkOpportunity_difference (A B : Snapshot) (c : String) :
    (mkOpportunity A B c).difference = |rateOf A c * 100 - rateOf B c * 100| := by
  unfold mkOpportunity; split <;> rfl

theorem mkOpportunity_directions (A B : Snapshot) (c : String) :
    (rateOf B c * 100 < rateOf A c * 100 ∧
      (mkOpportunity A B c).hyper_direction = "short" ∧
      (mkOpportunity A B c).para_direction = "long")
    ∨ (¬ rateOf B c * 100 < rateOf A c * 100 ∧
      (mkOpportunity A B c).hyper_direction = "long" ∧
      (mkOpportunity A B c).para_direction = "short") := by
  unfold mkOpportunity
  split
  next h => exact Or.inl ⟨h, rfl, rfl⟩
  next h => exact Or.inr ⟨h, rfl, rfl⟩

theorem mem_rankedReport_mem_opportunities {A B : Snapshot} {o : Opportunity}
    (h : o ∈ rankedReport A B) : o ∈ arbitrage_opportunities A B :=
  ((arbitrage_opportunities A B).mergeSort_perm byDifferenceDesc).mem_iff.mp
    (List.mem_of_mem_take h)

theorem mem_rankedReport_eq_mk {A B : Snapshot} {o : Opportunity}
    (h : o ∈ rankedReport A B) :
    ∃ c ∈ common_coins A B, o = mkOpportunity A B c := by
  have h2 := mem_rankedReport_mem_opportunities h
  unfold arbitrage_opportunities at h2
  obtain ⟨c, hc, hco⟩ := List.mem_map.mp h2
  exact ⟨c, hc, hco.symm⟩

theorem byDifferenceDesc_trans : ∀ a b c : Opportunity,
    byDifferenceDesc a b = true → byDifferenceDesc b c = true →
    byDifferenceDesc a c = true := by
  intro a b c h1 h2
  simp only [byDifferenceDesc, decide_eq_true_eq] at h1 h2 ⊢
  exact le_trans h2 h1

theorem byDifferenceDesc_total : ∀ a b : Opportunity,
    (byDifferenceDesc a b || byDifferenceDesc b a) = true := by
  intro a b
  simp only [byDifferenceDesc, Bool.or_eq_true, decide_eq_true_eq]
  exact le_total _ _

theorem rankedReport_pairwise (A B : Snapshot) :
    (rankedReport A B).Pairwise (fun x y => y.difference ≤ x.difference) := by
  have hs := List.sorted_mergeSort byDifferenceDesc_trans byDifferenceDesc_total
      (arbitrage_opportunities A B)
  have ht := List.Pairwise.sublist (List.take_sublist 5 _) hs
  exact ht.imp (by intro a b h; simpa [byDifferenceDesc] using h)

theorem common_coins_subset_right (A B : Snapshot) :
    common_coins A B ⊆ coinsOf B := by
  intro c hc
  have hm := List.mem_filter.mp hc
  simpa using hm.2

theorem rankedReport_eval (q r : ℚ) :
    rankedReport [("BTC", q)] [("BTC", r)] =
      [mkOpportunity [("BTC", q)] [("BTC", r)] "BTC"] := by
  simp [rankedReport, arbitrage_opportunities, common_coins, coinsOf]

/-! ### Claim theorems: the Arbitrage Detector -/

/-- C1 counterexample: the claimed tie-break (A = Hyperliquid gets "short",
B = Paradex gets "long" when the percent rates are equal) is false: on a tie
the strict comparison `hyper_rate > para_rate` fails, so the `else` branch
assigns Hyperliquid "long" and Paradex "short". Witnessed by two snapshots
both holding rate 0 for BTC. -/
theorem tie_break_counterexample :
    ¬ ∀ (A B : Snapshot) (o : Opportunity), o ∈ rankedReport A B →
        o.hyper_rate = o.para_rate →
        o.hyper_direction = "short" ∧ o.para_direction = "long" := by
  intro hclaim
  have hrr := rankedReport_eval 0 0
  have hmem : mkOpportunity [("BTC", 0)] [("BTC", 0)] "BTC" ∈
      rankedReport [("BTC", 0)] [("BTC", 0)] := by
    rw [hrr]; exact List.mem_singleton_self _
  have heq : (mkOpportunity [("BTC", 0)] [("BTC", 0)] "BTC").hyper_rate =
      (mkOpportunity [("BTC", 0)] [("BTC", 0)] "BTC").para_rate := by
    rw [mkOpportunity_hyper_rate, mkOpportunity_para_rate]
  have h := hclaim _ _ _ hmem heq
  have hlong : (mkOpportunity [("BTC", 0)] [("BTC", 0)] "BTC").hyper_direction =
      "long" := by
    rcases mkOpportunity_directions [("BTC", 0)] [("BTC", 0)] "BTC" with
      ⟨hgt, _, _⟩ | ⟨_, h1, _⟩
    · exact absurd hgt (lt_irrefl _)
    · exact h1
  rw [hlong] at h
  exact absurd h.1 (by decide)

/-- C1 (amended): on a tie (`rate_a_pct == rate_b_pct`) the detector
deterministically assigns the Hyperliquid side (A) "long" and the Paradex
side (B) "short", because the strict `>` comparison fails on equality and
the `else` branch runs. -/
theorem tie_break_directions (A B : Snapshot) (o : Opportunity)
    (ho : o ∈ rankedReport A B) (heq : o.hyper_rate = o.para_rate) :
    o.hyper_direction = "long" ∧ o.para_direction = "short" := by
  obtain ⟨c, hc, rfl⟩ := mem_rankedReport_eq_mk ho
  rw [mkOpportunity_hyper_rate, mkOpportunity_para_rate] at heq
  rcases mkOpportunity_directions A B c with ⟨hgt, _, _⟩ | ⟨_, h1, h2⟩
  · rw [heq] at hgt
    exact absurd hgt (lt_irrefl _)
  · exact ⟨h1, h2⟩

/-- C1 witness: the amended tie-break evaluated on concrete equal-rate
snapshots. -/
theorem tie_break_directions_witness :
    (mkOpportunity [("BTC", 0)] [("BTC", 0)] "BTC").hyper_direction = "long" ∧
    (mkOpportunity [("BTC", 0)] [("BTC", 0)] "BTC").para_direction = "short" :=
  tie_break_directions [("BTC", 0)] [("BTC", 0)] _
    (by rw [rankedReport_eval]; exact List.mem_singleton_self _)
    (by rw [mkOpportunity_hyper_rate, mkOpportunity_para_rate])

/-- C4: every opportunity in the report has distinct directions, and the
side with the numerically larger percent rate is the one labeled "short". -/
theorem direction_assignment (A B : Snapshot) (o : Opportunity)
    (ho : o ∈ rankedReport A B) :
    o.hyper_direction ≠ o.para_direction
    ∧ (o.para_rate < o.hyper_rate → o.hyper_direction = "short")
    ∧ (o.hyper_rate < o.para_rate → o.para_direction = "short") := by
  obtain ⟨c, hc, rfl⟩ := mem_rankedReport_eq_mk ho
  rw [mkOpportunity_hyper_rate, mkOpportunity_para_rate]
  rcases mkOpportunity_directions A B c with ⟨hgt, h1, h2⟩ | ⟨hng, h1, h2⟩
  · rw [h1, h2]
    exact ⟨by decide, fun _ => rfl, fun hlt => absurd hgt (asymm hlt)⟩
  · rw [h1, h2]
    exact ⟨by decide, fun hlt => absurd hlt hng, fun _ => rfl⟩

/-- C4 witness: the direction invariant evaluated on snapshots where the
Hyperliquid rate is strictly larger. -/
theorem direction_assignment_witness :
    (mkOpportunity [("BTC", 1)] [("BTC", 0)] "BTC").hyper_direction ≠
      (mkOpportunity [("BTC", 1)] [("BTC", 0)] "BTC").para_direction ∧
    ((mkOpportunity [("BTC", 1)] [("BTC", 0)] "BTC").para_rate <
        (mkOpportunity [("BTC", 1)] [("BTC", 0)] "BTC").hyper_rate →
      (mkOpportunity [("BTC", 1)] [("BTC", 0)] "BTC").hyper_direction = "short") :=
  ⟨(direction_assignment [("BTC", 1)] [("BTC", 0)] _
      (by rw [rankedReport_eval]; exact List.mem_singleton_self _)).1,
   (direction_assignment [("BTC", 1)] [("BTC", 0)] _
      (by rw [rankedReport_eval]; exact List.mem_singleton_self _)).2.1⟩

/-- C5: the report has at most five entries, is sorted non-increasing by the
difference, and every entry's difference is the absolute gap of the two
percent rates of its coin. -/
theorem ranked_report_sorted (A B : Snapshot) :
    (rankedReport A B).length ≤ 5
    ∧ (rankedReport A B).Pairwise (fun x y => y.difference ≤ x.difference)
    ∧ ∀ o ∈ rankedReport A B,
        o.difference = |rateOf A o.coin * 100 - rateOf B o.coin * 100| := by
  refine ⟨List.length_take_le 5 _, rankedReport_pairwise A B, ?_⟩
  intro o ho
  obtain ⟨c, hc, rfl⟩ := mem_rankedReport_eq_mk ho
  rw [mkOpportunity_coin, mkOpportunity_difference]

/-- C5 witness: the sortedness statement applied to concrete snapshots and
its membership hypothesis discharged on the unique entry. -/
theorem ranked_report_sorted_witness :
    (rankedReport [("BTC", 1)] [("BTC", 0)]).length ≤ 5
    ∧ (mkOpportunity [("BTC", 1)] [("BTC", 0)] "BTC").difference =
        |rateOf [("BTC", 1)] (mkOpportunity [("BTC", 1)] [("BTC", 0)] "BTC").coin * 100 -
          rateOf [("BTC", 0)] (mkOpportunity [("BTC", 1)] [("BTC", 0)] "BTC").coin * 100| :=
  ⟨(ranked_report_sorted [("BTC", 1)] [("BTC", 0)]).1,
   (ranked_report_sorted [("BTC", 1)] [("BTC", 0)]).2.2 _
      (by rw [rankedReport_eval]; exact List.mem_singleton_self _)⟩

/-- C6: the intersection is no larger than either snapshot, every reported
coin is present in both snapshots, and an empty intersection yields an empty
report (not an error: all functions involved are total). -/
theorem intersect_bounds (A B : Snapshot) (hA : (coinsOf A).Nodup) :
    (common_coins A B).length ≤ min A.length B.length
    ∧ (∀ o ∈ rankedReport A B, o.coin ∈ coinsOf A ∧ o.coin ∈ coinsOf B)
    ∧ (common_coins A B = [] → rankedReport A B = []) := by
  refine ⟨?_, ?_, ?_⟩
  · have h1 : (common_coins A B).length ≤ (coinsOf A).length :=
      List.length_filter_le _ _
    have h2 : (common_coins A B).length ≤ (coinsOf B).length :=
      (List.subperm_of_subset (hA.filter _) (common_coins_subset_right A B)).length_le
    simp only [coinsOf, List.length_map] at h1 h2
    omega
  · intro o ho
    obtain ⟨c, hc, rfl⟩ := mem_rankedReport_eq_mk ho
    rw [mkOpportunity_coin]
    exact ⟨(List.mem_filter.mp hc).1, common_coins_subset_right A B hc⟩
  · intro hemp
    unfold rankedReport arbitrage_opportunities
    rw [hemp]
    simp

/-- C6 witness: the bounds applied to concrete one-coin snapshots, the
no-duplicate hypothesis discharged by evaluation. -/
theorem intersect_bounds_witness :
    (common_coins [("BTC", 1)] [("BTC", 0)]).length ≤
      min ([("BTC", (1 : ℚ))] : Snapshot).length ([("BTC", (0 : ℚ))] : Snapshot).length :=
  (intersect_bounds [("BTC", 1)] [("BTC", 0)] (by decide)).1

/-- C10: one opportunity per common coin before truncation — the coins of
the opportunity list are exactly the common coins, without repetition and
without filtering (an equal-rate coin stays, with difference 0) — and the
final report length is exactly `min 5 |A ∩ B|`. -/
theorem one_opportunity_per_common_coin (A B : Snapshot)
    (hA : (coinsOf A).Nodup) :
    (arbitrage_opportunities A B).map Opportunity.coin = common_coins A B
    ∧ (common_coins A B).Nodup
    ∧ (rankedReport A B).length = min 5 (common_coins A B).length
    ∧ ∀ c ∈ common_coins A B,
        mkOpportunity A B c ∈ arbitrage_opportunities A B
        ∧ (rateOf A c = rateOf B c → (mkOpportunity A B c).difference = 0) := by
  refine ⟨?_, hA.filter _, ?_, ?_⟩
  · unfold arbitrage_opportunities
    rw [List.map_map]
    have hcomp : (Opportunity.coin ∘ mkOpportunity A B) = id :=
      funext fun c => mkOpportunity_coin A B c
    rw [hcomp, List.map_id]
  · unfold rankedReport
    rw [List.length_take, List.length_mergeSort]
    unfold arbitrage_opportunities
    rw [List.length_map]
  · intro c hc
    refine ⟨List.mem_map_of_mem _ hc, ?_⟩
    intro hr
    rw [mkOpportunity_difference, hr]
    simp

/-- C10 witness: the per-coin completeness applied to concrete snapshots
sharing one coin with equal rates. -/
theorem one_opportunity_per_common_coin_witness :
    (rankedReport [("BTC", 0)] [("BTC", 0)]).length =
      min 5 (common_coins [("BTC", 0)] [("BTC", 0)]).length
    ∧ (mkOpportunity [("BTC", 0)] [("BTC", 0)] "BTC").difference = 0 :=
  ⟨(one_opportunity_per_common_coin [("BTC", 0)] [("BTC", 0)] (by decide)).2.2.1,
   ((one_opportunity_per_common_coin [("BTC", 0)] [("BTC", 0)] (by decide)).2.2.2 "BTC"
      (by simp [common_coins, coinsOf])).2 rfl⟩

/-! ### Claim theorem: the Scheduler wait -/

/-- C9: the wait after a cycle is exactly the time left to the next
wall-clock hour boundary — `hourUs - now % hourUs` — always positive, never
more than one hour, and waking exactly on a boundary, so cycle duration does
not drift the schedule. -/
theorem wait_until_next_hour (now : Nat) :
    wait_us now = hourUs - now % hourUs
    ∧ 0 < wait_us now
    ∧ wait_us now ≤ hourUs
    ∧ (now + wait_us now) % hourUs = 0
    ∧ now + wait_us now = next_hour now := by
  unfold wait_us next_hour truncToHour hourUs
  omega

/-! ### Helper lemmas about the adapters -/

theorem fundingAttempts_none {oracle : Nat → HyperOutcome}
    (h : ∀ i, hyperNoData (oracle i)) (coin : String) :
    ∀ fuel attempt, (fundingAttempts coin oracle attempt fuel).1 = none := by
  intro fuel
  induction fuel with
  | zero => intro attempt; rfl
  | succ f ih =>
    intro attempt
    cases ho : oracle attempt with
    | exn => simp [fundingAttempts, ho, ih]
    | resp status data =>
      have hnd := h attempt
      rw [ho] at hnd
      by_cases hs : status = 200
      · have hd : data = [] := by
          rcases hnd with hbad | hd
          · exact absurd hs hbad
          · exact hd
        subst hd
        simp [fundingAttempts, ho, hs, ih]
      · simp [fundingAttempts, ho, hs, ih]

theorem fundingAttempts_coin {oracle : Nat → HyperOutcome} {coin : String}
    {fd : FundingData} :
    ∀ fuel attempt, (fundingAttempts coin oracle attempt fuel).1 = some fd →
      fd.coin = coin := by
  intro fuel
  induction fuel with
  | zero => intro attempt h; exact absurd h (by simp [fundingAttempts])
  | succ f ih =>
    intro attempt h
    cases ho : oracle attempt with
    | exn =>
      simp [fundingAttempts, ho] at h
      exact ih (attempt + 1) h
    | resp status data =>
      by_cases hs : status = 200
      · subst hs
        cases hl : data.getLast? with
        | none =>
          simp [fundingAttempts, ho, hl] at h
          exact ih (attempt + 1) h
        | some latest =>
          simp [fundingAttempts, ho, hl] at h
          subst h
          rfl
      · simp [fundingAttempts, ho, hs] at h
        exact ih (attempt + 1) h

theorem fundingAttempts_congr {oracle oracle₂ : Nat → HyperOutcome} (coin : String) :
    ∀ fuel attempt, (∀ i, attempt ≤ i → i < attempt + fuel → oracle i = oracle₂ i) →
      fundingAttempts coin oracle attempt fuel =
        fundingAttempts coin oracle₂ attempt fuel := by
  intro fuel
  induction fuel with
  | zero => intro attempt _; rfl
  | succ f ih =>
    intro attempt h
    have h0 : oracle attempt = oracle₂ attempt :=
      h attempt (le_refl _) (by omega)
    have hrec := ih (attempt + 1) (fun i h1 h2 => h i (by omega) (by omega))
    rw [fundingAttempts, fundingAttempts, ← h0, hrec]

/-! ### Claim theorems: the Rate Source Adapters -/

/-- C2 counterexample: a Paradex response with a present result whose
`funding_rate` field is absent is mapped by
`float(latest.get('funding_rate', '0'))` to a zero-rate entry — not to an
absent one — and that entry is identical to the one produced by a true zero
funding rate, so the two cases are indistinguishable. -/
theorem paradex_missing_rate_counterexample :
    paradexEntry "BTC-USD-PERP" 200 [⟨none⟩] = some ("BTC", 0)
    ∧ paradexEntry "BTC-USD-PERP" 200 [⟨none⟩] =
        paradexEntry "BTC-USD-PERP" 200 [⟨some 0⟩] := by
  constructor <;> decide

/-- C2 (amended): both adapters map a response carrying no funding
observation — an exception, a non-200 status, or an empty history/results
list — to an absent result; but only Hyperliquid also keeps a record with a
missing rate field absent (its `latest['fundingRate']` raises, feeding the
retry loop), while Paradex defaults such a record to a zero-rate entry. -/
theorem no_data_absent (coin : String) (oracle : Nat → HyperOutcome)
    (market : String) (status : Nat) (results : List ParaRecord) :
    ((∀ i, hyperNoData (oracle i)) → (get_funding_for_coin coin oracle).1 = none)
    ∧ (results = [] → paradexEntry market status results = none)
    ∧ (status ≠ 200 → paradexEntry market status results = none) := by
  refine ⟨?_, ?_, ?_⟩
  · intro h
    exact fundingAttempts_none h coin 3 0
  · intro h
    subst h
    unfold paradexEntry
    split <;> rfl
  · intro h
    unfold paradexEntry
    rw [if_neg h]

/-- C2 witness: the amended absence behavior evaluated on an all-failing
oracle, an empty results list and a 404 status. -/
theorem no_data_absent_witness :
    (get_funding_for_coin "BTC" (fun _ => .exn)).1 = none
    ∧ paradexEntry "BTC-USD-PERP" 200 [] = none
    ∧ paradexEntry "BTC-USD-PERP" 404 [⟨some 1⟩] = none :=
  ⟨(no_data_absent "BTC" (fun _ => .exn) "BTC-USD-PERP" 200 []).1
      (fun _ => trivial),
   (no_data_absent "BTC" (fun _ => .exn) "BTC-USD-PERP" 200 []).2.1 rfl,
   (no_data_absent "BTC" (fun _ => .exn) "BTC-USD-PERP" 404 [⟨some 1⟩]).2.2
      (by decide)⟩

/-- C3 counterexample: the Paradex adapter performs a single attempt per
market — a symbol whose first request raises is dropped even though a
second attempt would have produced an observation (the Hyperliquid loop,
run on the analogous outcomes, retries and returns it after one 200ms
pause) — and the Hyperliquid pause after a non-200 attempt is a fixed
100ms, not 200ms times the attempt index. -/
theorem retry_policy_counterexample :
    paradexFetchMarket "BTC-USD-PERP" [.exn, .resp 200 [⟨some 0⟩]] = none
    ∧ get_funding_for_coin "BTC" retryCexOracle = (some ⟨"BTC", 0, 5⟩, [200])
    ∧ (get_funding_for_coin "BTC" (fun _ => .resp 500 [])).2 = [100, 100, 100] := by
  refine ⟨by decide, ?_, by decide⟩
  simp [get_funding_for_coin, fundingAttempts, retryCexOracle]

/-- C3 (amended): the Hyperliquid adapter retries each symbol for up to 3
attempts (only the first three attempt outcomes are ever consulted); a
symbol whose attempts all raise is given up after pauses of 200ms times the
one-based attempt number and contributes no entry to the snapshot (it is
dropped, never an error — the fetch is total); the Paradex adapter makes a
single attempt per market, with no retry. -/
theorem retry_policy (coin : String) (oracle oracle₂ : Nat → HyperOutcome)
    (univCoins : List String) (c : String)
    (horacle : String → Nat → HyperOutcome)
    (market : String) (outs : List ParaOutcome) :
    ((∀ i, i < 3 → oracle i = oracle₂ i) →
      get_funding_for_coin coin oracle = get_funding_for_coin coin oracle₂)
    ∧ ((∀ i, oracle i = .exn) →
        get_funding_for_coin coin oracle = (none, [200, 400, 600]))
    ∧ ((get_funding_for_coin c (horacle c)).1 = none →
        c ∉ coinsOf (get_hyperliquid_funding univCoins horacle))
    ∧ paradexFetchMarket market outs = paradexFetchMarket market (outs.take 1) := by
  refine ⟨?_, ?_, ?_, ?_⟩
  · intro h
    exact fundingAttempts_congr coin 3 0 (fun i _ h2 => h i (by omega))
  · intro h
    unfold get_funding_for_coin
    rw [fundingAttempts, h 0, fundingAttempts, h 1, fundingAttempts, h 2]
    rfl
  · intro hnone hmem
    unfold get_hyperliquid_funding coinsOf at hmem
    rw [List.map_filterMap] at hmem
    obtain ⟨d, hd, hval⟩ := List.mem_filterMap.mp hmem
    cases hfd : (get_funding_for_coin d (horacle d)).1 with
    | none => rw [hfd] at hval; simp at hval
    | some fd =>
      rw [hfd] at hval
      simp only [Option.map_some, Option.map] at hval
      have hcoin : fd.coin = d := fundingAttempts_coin 3 0 hfd
      have hcd : c = d := by
        cases hval
        exact hcoin
      rw [hcd] at hnone
      rw [hnone] at hfd
      cases hfd
  · cases outs <;> rfl

/-- C3 witness: the amended retry policy evaluated on an all-raising oracle
and on a concrete market outcome list. -/
theorem retry_policy_witness :
    get_funding_for_coin "BTC" (fun _ => .exn) = (none, [200, 400, 600])
    ∧ ("BTC" : String) ∉ coinsOf (get_hyperliquid_funding ["BTC"] (fun _ _ => .exn))
    ∧ paradexFetchMarket "ETH-USD-PERP" [.exn, .exn] =
        paradexFetchMarket "ETH-USD-PERP" ([.exn, .exn].take 1) :=
  ⟨(retry_policy "BTC" (fun _ => .exn) (fun _ => .exn) ["BTC"] "BTC"
      (fun _ _ => .exn) "ETH-USD-PERP" [.exn, .exn]).2.1 (fun _ => rfl),
   (retry_policy "BTC" (fun _ => .exn) (fun _ => .exn) ["BTC"] "BTC"
      (fun _ _ => .exn) "ETH-USD-PERP" [.exn, .exn]).2.2.1
      (by rw [(retry_policy "BTC" (fun _ => .exn) (fun _ => .exn) ["BTC"] "BTC"
          (fun _ _ => .exn) "ETH-USD-PERP" [.exn, .exn]).2.1 (fun _ => rfl)]),
   (retry_policy "BTC" (fun _ => .exn) (fun _ => .exn) ["BTC"] "BTC"
      (fun _ _ => .exn) "ETH-USD-PERP" [.exn, .exn]).2.2.2⟩

/-! ### Claim theorem: the Scheduler self-healing -/

/-- C8: the `try/except Exception` of `main` catches any failure of the
cycle body (an adapter outage raised by either fetch included), the failed
cycle sends nothing, and the loop step still computes the next wake-up
instant as the next hour boundary — the step is a total function, so no
cycle failure terminates the scheduler. -/
theorem cycle_self_healing (body : Except String (Option String)) (e : String)
    (fetchHyper fetchPara : Except String Snapshot) (t : String) (now : Nat) :
    (body = .error e → mainCatch body = none)
    ∧ (fetchHyper = .error e → (run_hourly_step fetchHyper fetchPara t now).1 = none)
    ∧ (fetchPara = .error e → (run_hourly_step fetchHyper fetchPara t now).1 = none)
    ∧ (run_hourly_step fetchHyper fetchPara t now).2 = next_hour now := by
  refine ⟨?_, ?_, ?_, rfl⟩
  · intro h; subst h; rfl
  · intro h; subst h; rfl
  · intro h
    subst h
    cases fetchHyper <;> rfl

/-- C8 witness: a total outage of the Hyperliquid adapter in a concrete
cycle is caught, produces no payload, and the next tick is still the next
hour boundary. -/
theorem cycle_self_healing_witness :
    mainCatch (.error "boom") = none
    ∧ (run_hourly_step (.error "outage") (.ok []) "12:00:00" 1800000000).1 = none
    ∧ (run_hourly_step (.error "outage") (.ok []) "12:00:00" 1800000000).2 =
        next_hour 1800000000 :=
  ⟨(cycle_self_healing (.error "boom") "boom" (.error "outage") (.ok [])
      "12:00:00" 1800000000).1 rfl,
   (cycle_self_healing (.error "boom") "outage" (.error "outage") (.ok [])
      "12:00:00" 1800000000).2.1 rfl,
   (cycle_self_healing (.error "boom") "outage" (.error "outage") (.ok [])
      "12:00:00" 1800000000).2.2.2⟩

/-! ### Helper lemmas about the formatter -/

theorem ne_empty_of_length_pos {s : String} (h : 0 < s.length) : s ≠ "" := by
  intro he
  rw [he] at h
  exact absurd h (by decide)

theorem length_append_pos_left (a b : String) (h : 0 < a.length) :
    0 < (a ++ b).length := by
  rw [String.length_append]
  omega

theorem joinLines_cons_cons (x y : String) (ys : List String) :
    joinLines (x :: y :: ys) = x ++ "\n" ++ joinLines (y :: ys) := rfl

theorem oppChunk_eq (arb : Opportunity) :
    oppChunk arb = joinLines (oppLines arb) ++ "\n" := by
  simp only [oppChunk, oppLines, joinLines, String.append_assoc, String.append_empty]

theorem oppLines_ne_nil (arb : Opportunity) : oppLines arb ≠ [] := by
  simp [oppLines]

theorem flatten_oppLines_ne_nil (y : Opportunity) (r : List Opportunity) :
    ((y :: r).map oppLines).flatten ≠ [] := by
  simp [oppLines]

theorem joinLines_append (l L : List String) (hl : l ≠ []) (hL : L ≠ []) :
    joinLines (l ++ L) = joinLines l ++ "\n" ++ joinLines L := by
  induction l with
  | nil => exact absurd rfl hl
  | cons a l ih =>
    cases l with
    | nil =>
      cases L with
      | nil => exact absurd rfl hL
      | cons b L' =>
        rw [List.singleton_append, joinLines_cons_cons]
        rfl
    | cons a' l' =>
      have h := ih (by simp)
      rw [List.cons_append, List.cons_append, joinLines_cons_cons]
      simp only [List.cons_append] at h
      rw [h, joinLines_cons_cons]
      simp [String.append_assoc]

theorem foldl_oppChunk (report : List Opportunity) :
    ∀ s : String, report ≠ [] →
      report.foldl (fun msg arb => msg ++ oppChunk arb) s =
        s ++ (joinLines ((report.map oppLines).flatten) ++ "\n") := by
  induction report with
  | nil => intro s h; exact absurd rfl h
  | cons x r ih =>
    intro s _
    cases r with
    | nil =>
      show s ++ oppChunk x = _
      rw [oppChunk_eq]
      simp
    | cons y r' =>
      show (y :: r').foldl (fun msg arb => msg ++ oppChunk arb) (s ++ oppChunk x) = _
      rw [ih (s ++ oppChunk x) (by simp),
        show ((x :: y :: r').map oppLines).flatten =
          oppLines x ++ ((y :: r').map oppLines).flatten from by simp,
        joinLines_append (oppLines x) _ (oppLines_ne_nil x) (flatten_oppLines_ne_nil y r'),
        oppChunk_eq]
      simp only [String.append_assoc]

theorem formatMessage_eq_joinLines (t : String) (report : List Opportunity)
    (h : report ≠ []) :
    formatMessage t report = some (joinLines (reportLines t report) ++ "\n") := by
  unfold formatMessage
  rw [if_neg (by simpa using h)]
  congr 1
  rw [foldl_oppChunk report _ h]
  unfold reportLines
  cases report with
  | nil => exact absurd rfl h
  | cons x r =>
    have hflat := flatten_oppLines_ne_nil x r
    cases hfl : ((x :: r).map oppLines).flatten with
    | nil => exact absurd hfl hflat
    | cons c cs =>
      rw [joinLines_cons_cons, joinLines_cons_cons]
      have h2 : ("\n\n" : String) = "\n" ++ "\n" := rfl
      rw [h2]
      simp only [String.append_assoc, String.empty_append]

theorem headerLine_ne_empty (t : String) : headerLine t ≠ "" := by
  apply ne_empty_of_length_pos
  unfold headerLine
  apply length_append_pos_left
  apply length_append_pos_left
  decide

theorem filter_oppLines (arb : Opportunity) :
    (oppLines arb).filter (fun l => l ≠ "") =
      ["<b>" ++ arb.coin ++ "</b>",
       "Hyperliquid (" ++ arb.hyper_direction ++ "): " ++ fmtSigned4 arb.hyper_rate ++ "%",
       "Paradex (" ++ arb.para_direction ++ "): " ++ fmtSigned4 arb.para_rate ++ "%",
       "Difference: " ++ fmt4 arb.difference ++ "%"] := by
  have h1 : ("<b>" ++ arb.coin ++ "</b>") ≠ "" := by
    apply ne_empty_of_length_pos
    repeat apply length_append_pos_left
    decide
  have h2 : ("Hyperliquid (" ++ arb.hyper_direction ++ "): " ++
      fmtSigned4 arb.hyper_rate ++ "%") ≠ "" := by
    apply ne_empty_of_length_pos
    repeat apply length_append_pos_left
    decide
  have h3 : ("Paradex (" ++ arb.para_direction ++ "): " ++
      fmtSigned4 arb.para_rate ++ "%") ≠ "" := by
    apply ne_empty_of_length_pos
    repeat apply length_append_pos_left
    decide
  have h4 : ("Difference: " ++ fmt4 arb.difference ++ "%") ≠ "" := by
    apply ne_empty_of_length_pos
    repeat apply length_append_pos_left
    decide
  simp [oppLines, h1, h2, h3, h4]

theorem filter_flatten_length (report : List Opportunity) :
    (((report.map oppLines).flatten).filter (fun l => l ≠ "")).length =
      4 * report.length := by
  induction report with
  | nil => rfl
  | cons x r ih =>
    rw [List.map_cons, List.flatten_cons, List.filter_append, List.length_append,
      filter_oppLines, ih]
    simp [List.length_cons]
    omega

/-! ### Claim theorem: the Report Formatter -/

/-- C7: an empty report yields no payload (so the fan-out is not invoked);
a non-empty report yields the message whose lines are one header line
carrying the generation time followed, per opportunity, by exactly four
nonblank lines — the symbol, the Hyperliquid-labeled rate with its
direction and signed 4-decimal percent, the Paradex-labeled rate likewise,
and the absolute 4-decimal difference. -/
theorem formatter_shape (t : String) (report : List Opportunity) :
    (report = [] → formatMessage t report = none)
    ∧ (report ≠ [] →
        formatMessage t report = some (joinLines (reportLines t report) ++ "\n")
        ∧ ((reportLines t report).filter (fun l => l ≠ "")).length =
            1 + 4 * report.length
        ∧ (reportLines t report).head? = some (headerLine t)
        ∧ ∀ arb ∈ report, (oppLines arb).filter (fun l => l ≠ "") =
            ["<b>" ++ arb.coin ++ "</b>",
             "Hyperliquid (" ++ arb.hyper_direction ++ "): " ++
               fmtSigned4 arb.hyper_rate ++ "%",
             "Paradex (" ++ arb.para_direction ++ "): " ++
               fmtSigned4 arb.para_rate ++ "%",
             "Difference: " ++ fmt4 arb.difference ++ "%"]) := by
  constructor
  · intro h; subst h; rfl
  · intro h
    refine ⟨formatMessage_eq_joinLines t report h, ?_, rfl,
      fun arb _ => filter_oppLines arb⟩
    show ((reportLines t report).filter (fun l => l ≠ "")).length =
      1 + 4 * report.length
    unfold reportLines
    rw [List.filter_cons_of_pos, List.filter_cons_of_neg]
    · rw [List.length_cons, filter_flatten_length]
      omega
    · simp
    · simp [headerLine_ne_empty t]

/-- C7 witness: the formatter shape on the empty report and on a concrete
one-opportunity report. -/
theorem formatter_shape_witness :
    formatMessage "12:00:00" [] = none
    ∧ ((reportLines "12:00:00" [⟨"BTC", 100, 0, 100, "short", "long"⟩]).filter
        (fun l => l ≠ "")).length =
      1 + 4 * List.length [(⟨"BTC", 100, 0, 100, "short", "long"⟩ : Opportunity)] :=
  ⟨(formatter_shape "12:00:00" []).1 rfl,
   ((formatter_shape "12:00:00" [⟨"BTC", 100, 0, 100, "short", "long"⟩]).2
      (by simp)).2.1⟩

end FundingArb
